import Mathlib

/-!
Shallow embedding of the per-connection HTTP/1.x engine of this repository:
the framed body writers and chunked reader (src/http/h1/write.rs,
src/http/h1/read.rs), the connection state machine with its transfer lease
(src/http/conn.rs), the keep-alive predicate (src/http/mod.rs), and the
response head/framing logic (src/server/response.rs).

Bytes are modelled as natural numbers, byte buffers as lists; the
underlying Write sink (a plain growing byte vector in the tests, the
AsyncWriter over the transfer in the server) is modelled by returning the
emitted bytes, which the caller appends.  The u64 counters of the source
are modelled as Nat; in read_chunk_size, where attacker-controlled input
could overflow the u64 accumulator, the wrap-around is kept explicitly as
a reduction modulo 2 ^ 64.
-/

/-- The chunk-size accumulator in the source is a u64; multiplication and
addition wrap modulo 2 ^ 64. -/
def u64Wrap (n : Nat) : Nat := n % 2 ^ 64

/-- One hex digit byte as produced by the X format of the source
(0-9 are ASCII 48-57, 10-15 are uppercase ASCII 65-70). -/
def hexDigit (d : Nat) : Nat := if d < 10 then 48 + d else 55 + d

/-- Fuel-bounded digit extraction, most significant digit first; the fuel
makes the definition structurally recursive and hence computable by the
kernel.  With fuel at least n it agrees with Nat.digits (see
hexBytesGo_eq_digits). -/
def hexBytesGo : Nat → Nat → List Nat → List Nat
  | 0, _, acc => acc
  | fuel + 1, n, acc =>
      if n = 0 then acc else hexBytesGo fuel (n / 16) (hexDigit (n % 16) :: acc)

/-- The bytes of the uppercase-hex rendering of a number, as written by
the chunk-size line in HttpWriter::write for the ChunkedWriter variant:
no leading zeros, and a single 48 (the digit 0) for zero. -/
def hexBytes (n : Nat) : List Nat :=
  if n = 0 then [48] else hexBytesGo n n []

/-- The byte frame emitted for one chunked write of msg in
HttpWriter::write: the hex length, CRLF, the payload, CRLF. -/
def chunkedFrame (msg : List Nat) : List Nat :=
  hexBytes msg.length ++ [13, 10] ++ msg ++ [13, 10]

/-- The four body-writer variants of src/http/h1/write.rs.  The underlying
writer W is externalized: operations return the bytes they emit to it. -/
inductive HttpWriter : Type
  | ThroughWriter : HttpWriter
  | ChunkedWriter : HttpWriter
  | SizedWriter (remaining : Nat) : HttpWriter
  | EmptyWriter : HttpWriter
  deriving DecidableEq, Repr

namespace HttpWriter

/-- Write for HttpWriter (impl Write for HttpWriter in
src/http/h1/write.rs): returns the updated writer, the bytes emitted to
the underlying writer, and the accepted byte count Ok(n). -/
def write : HttpWriter → List Nat → HttpWriter × List Nat × Nat
  | ThroughWriter, msg => (ThroughWriter, msg, msg.length)
  | ChunkedWriter, msg => (ChunkedWriter, chunkedFrame msg, msg.length)
  | SizedWriter remaining, msg =>
      if msg.length > remaining then
        (SizedWriter 0, msg.take remaining, remaining)
      else
        (SizedWriter (remaining - msg.length), msg, msg.length)
  | EmptyWriter, _ => (EmptyWriter, [], 0)

/-- Emission of a sequence of writes, threading the writer state and
concatenating the bytes emitted to the underlying writer. -/
def writeAll : HttpWriter → List (List Nat) → HttpWriter × List Nat
  | w, [] => (w, [])
  | w, msg :: rest =>
      let r := w.write msg
      let rr := writeAll r.1 rest
      (rr.1, r.2.1 ++ rr.2)

/-- Bytes emitted by HttpWriter::end, which performs a final write of the
empty message and flushes (the flush emits nothing extra). -/
def endEmit (w : HttpWriter) : List Nat := (w.write []).2.1

/-- Bytes emitted by the Drop impl of HttpWriter: the ChunkedWriter
variant performs a write of the empty message, the others do nothing. -/
def dropEmit : HttpWriter → List Nat
  | ChunkedWriter => (ChunkedWriter.write []).2.1
  | _ => []

end HttpWriter

/-- After a CR in the chunk-size line the source reads one more byte and
requires it to be LF (10); anything else, or end of input, is an
InvalidInput error. -/
def readLF (size : Nat) : List Nat → Option (Nat × List Nat)
  | 10 :: rest2 => some (size, rest2)
  | _ => none

/-- Helper for the chunk-size state machine of read_chunk_size in
src/http/h1/read.rs: one byte per step, carrying the accumulated size and
the in_ext / in_chunk_size flags.  Reaching end of input, an invalid byte,
or the unimplemented chunk-extension hook yields none (an error or panic
in the source). -/
def readChunkSizeAux : List Nat → Nat → Bool → Bool → Option (Nat × List Nat)
  | [], _, _, _ => none
  | b :: rest, size, inExt, inCS =>
      if 48 ≤ b ∧ b ≤ 57 ∧ inCS = true then
        readChunkSizeAux rest (u64Wrap (16 * size + (b - 48))) inExt inCS
      else if 97 ≤ b ∧ b ≤ 102 ∧ inCS = true then
        readChunkSizeAux rest (u64Wrap (16 * size + (b + 10 - 97))) inExt inCS
      else if 65 ≤ b ∧ b ≤ 70 ∧ inCS = true then
        readChunkSizeAux rest (u64Wrap (16 * size + (b + 10 - 65))) inExt inCS
      else if b = 13 then
        readLF size rest
      else if b = 59 ∧ inExt = false then
        readChunkSizeAux rest size true false
      else if (b = 9 ∨ b = 32) ∧ inExt = false ∧ inCS = false then
        readChunkSizeAux rest size inExt inCS
      else if (b = 9 ∨ b = 32) ∧ inCS = true then
        readChunkSizeAux rest size inExt false
      else
        none

/-- read_chunk_size of src/http/h1/read.rs on a byte list. -/
def read_chunk_size (l : List Nat) : Option (Nat × List Nat) :=
  readChunkSizeAux l 0 false true

/-- Driving the ChunkedReader of src/http/h1/read.rs to completion on a
byte list: read a chunk-size line; a zero size ends the stream; otherwise
the chunk bytes must be present followed by CRLF (eaten by eat), and
reading continues.  Fuel bounds the number of chunks. -/
def decodeChunkedAux : Nat → List Nat → Option (List Nat)
  | 0, _ => none
  | fuel + 1, input =>
      match read_chunk_size input with
      | none => none
      | some (size, rest) =>
          if size = 0 then some []
          else if size ≤ rest.length then
            match rest.drop size with
            | 13 :: 10 :: more =>
                (decodeChunkedAux fuel more).map (fun tail => rest.take size ++ tail)
            | _ => none
          else none

/-- Full chunked-stream decode; one chunk consumes at least one byte, so
the input length bounds the required fuel. -/
def decodeChunked (l : List Nat) : Option (List Nat) :=
  decodeChunkedAux (l.length + 1) l

example : (HttpWriter.ChunkedWriter.writeAll [[102, 111, 111, 32, 98, 97, 114],
    [98, 97, 122, 32, 113, 117, 117, 120, 32, 104, 101, 114, 112]]).2 ++
    HttpWriter.ChunkedWriter.endEmit =
    [55, 13, 10, 102, 111, 111, 32, 98, 97, 114, 13, 10,
     68, 13, 10, 98, 97, 122, 32, 113, 117, 117, 120, 32, 104, 101, 114, 112, 13, 10,
     48, 13, 10, 13, 10] := by decide

example : decodeChunked [49, 13, 10, 97, 13, 10, 48, 13, 10, 13, 10] = some [97] := by
  decide

/-- Accumulating a big-endian digit list onto a size accumulator, the way
the digit branches of read_chunk_size do: multiply by 16, add the digit. -/
def foldVal (size : Nat) (L : List Nat) : Nat :=
  L.foldl (fun a d => 16 * a + d) size

theorem foldVal_cons (size d : Nat) (L : List Nat) :
    foldVal size (d :: L) = foldVal (16 * size + d) L := rfl

theorem le_foldVal (L : List Nat) : ∀ size, size ≤ foldVal size L := by
  induction L with
  | nil => intro size; exact Nat.le_refl _
  | cons d L ih =>
      intro size
      calc size ≤ 16 * size + d := by omega
        _ ≤ foldVal (16 * size + d) L := ih _

theorem foldVal_digits (n : Nat) :
    foldVal 0 ((Nat.digits 16 n).reverse) = n := by
  have h : ∀ L : List Nat, List.foldr (fun d a => 16 * a + d) 0 L = Nat.ofDigits 16 L := by
    intro L
    induction L with
    | nil => rfl
    | cons d L ih =>
        rw [List.foldr_cons, ih, Nat.ofDigits_cons]
        omega
  have h2 : foldVal 0 ((Nat.digits 16 n).reverse) =
      List.foldr (fun d a => 16 * a + d) 0 (Nat.digits 16 n) := by
    simp [foldVal]
  rw [h2, h, Nat.ofDigits_digits]

theorem hexBytesGo_eq_digits :
    ∀ fuel n acc, n ≤ fuel →
      hexBytesGo fuel n acc = ((Nat.digits 16 n).reverse.map hexDigit) ++ acc := by
  intro fuel
  induction fuel with
  | zero =>
      intro n acc h
      have hn : n = 0 := Nat.le_zero.mp h
      subst hn
      simp [hexBytesGo]
  | succ fuel ih =>
      intro n acc h
      by_cases hn : n = 0
      · subst hn; simp [hexBytesGo]
      · have hdiv : n / 16 < n := Nat.div_lt_self (Nat.pos_of_ne_zero hn) (by norm_num)
        rw [hexBytesGo, if_neg hn, ih (n / 16) _ (by omega),
          Nat.digits_def' (by norm_num : 1 < 16) (Nat.pos_of_ne_zero hn)]
        simp [List.reverse_cons, List.map_append]

theorem hexBytes_eq_digits (n : Nat) (hn : n ≠ 0) :
    hexBytes n = (Nat.digits 16 n).reverse.map hexDigit := by
  rw [hexBytes, if_neg hn, hexBytesGo_eq_digits n n [] (Nat.le_refl n), List.append_nil]

theorem readChunkSizeAux_digit_step (d : Nat) (hd : d < 16) (size : Nat) (l : List Nat)
    (hsz : 16 * size + d < 2 ^ 64) :
    readChunkSizeAux (hexDigit d :: l) size false true =
      readChunkSizeAux l (16 * size + d) false true := by
  have hwrap : u64Wrap (16 * size + d) = 16 * size + d := Nat.mod_eq_of_lt hsz
  by_cases h10 : d < 10
  · have hb : hexDigit d = 48 + d := by simp [hexDigit, h10]
    rw [readChunkSizeAux, hb, if_pos ⟨by omega, by omega, rfl⟩]
    have : 48 + d - 48 = d := by omega
    rw [this, hwrap]
  · have hb : hexDigit d = 55 + d := by simp [hexDigit, h10]
    rw [readChunkSizeAux, hb,
      if_neg (by rintro ⟨h1, h2, h3⟩; omega),
      if_neg (by rintro ⟨h1, h2, h3⟩; omega),
      if_pos ⟨by omega, by omega, rfl⟩]
    have : 55 + d + 10 - 65 = d := by omega
    rw [this, hwrap]

theorem readChunkSizeAux_digits :
    ∀ (L : List Nat) (size : Nat) (rest : List Nat),
      (∀ d ∈ L, d < 16) → foldVal size L < 2 ^ 64 →
      readChunkSizeAux (L.map hexDigit ++ 13 :: 10 :: rest) size false true =
        some (foldVal size L, rest) := by
  intro L
  induction L with
  | nil =>
      intro size rest _ _
      rw [List.map_nil, List.nil_append, readChunkSizeAux,
        if_neg (by rintro ⟨h1, h2, h3⟩; omega),
        if_neg (by rintro ⟨h1, h2, h3⟩; omega),
        if_neg (by rintro ⟨h1, h2, h3⟩; omega),
        if_pos rfl]
      rfl
  | cons d L ih =>
      intro size rest hmem hlt
      have hd : d < 16 := hmem d (List.mem_cons_self d L)
      have hstep : 16 * size + d < 2 ^ 64 := by
        have := le_foldVal L (16 * size + d)
        rw [foldVal_cons] at hlt
        omega
      rw [List.map_cons, List.cons_append,
        readChunkSizeAux_digit_step d hd size _ hstep,
        ih (16 * size + d) rest (fun x hx => hmem x (List.mem_cons_of_mem d hx))
          (by rw [foldVal_cons] at hlt; exact hlt),
        foldVal_cons]

theorem read_chunk_size_frame (w rest : List Nat) (hw : w ≠ [])
    (hlen : w.length < 2 ^ 64) :
    read_chunk_size (chunkedFrame w ++ rest) =
      some (w.length, w ++ 13 :: 10 :: rest) := by
  have hn : w.length ≠ 0 := by simpa [List.length_eq_zero] using hw
  have hshape : chunkedFrame w ++ rest =
      ((Nat.digits 16 w.length).reverse.map hexDigit) ++
        13 :: 10 :: (w ++ 13 :: 10 :: rest) := by
    rw [chunkedFrame, hexBytes_eq_digits w.length hn]
    simp
  rw [read_chunk_size, hshape,
    readChunkSizeAux_digits _ 0 _
      (by
        intro x hx
        rw [List.mem_reverse] at hx
        exact Nat.digits_lt_base (by norm_num) hx)
      (by rw [foldVal_digits]; exact hlen),
    foldVal_digits]

theorem chunkedFrame_length_pos (w : List Nat) : 1 ≤ (chunkedFrame w).length := by
  simp [chunkedFrame]
  omega

theorem length_le_flatten_frames (W : List (List Nat)) :
    W.length ≤ ((W.map chunkedFrame).flatten).length := by
  induction W with
  | nil => simp
  | cons w ws ih =>
      simp only [List.map_cons, List.flatten_cons, List.length_append, List.length_cons]
      have := chunkedFrame_length_pos w
      omega

theorem decodeChunkedAux_frames :
    ∀ (W : List (List Nat)) (fuel : Nat), W.length < fuel →
      (∀ w ∈ W, w ≠ []) → (∀ w ∈ W, w.length < 2 ^ 64) →
      decodeChunkedAux fuel ((W.map chunkedFrame).flatten ++ chunkedFrame []) =
        some W.flatten := by
  intro W
  induction W with
  | nil =>
      intro fuel hf _ _
      obtain ⟨f, rfl⟩ : ∃ f, fuel = f + 1 := ⟨fuel - 1, by omega⟩
      have h0 : read_chunk_size (chunkedFrame []) = some (0, [13, 10]) := by decide
      simp [decodeChunkedAux, h0]
  | cons w ws ih =>
      intro fuel hf hne hlen
      obtain ⟨f, rfl⟩ : ∃ f, fuel = f + 1 := ⟨fuel - 1, by omega⟩
      have hwne : w ≠ [] := hne w (List.mem_cons_self w ws)
      have hwlen : w.length < 2 ^ 64 := hlen w (List.mem_cons_self w ws)
      have hrcs := read_chunk_size_frame w
        ((ws.map chunkedFrame).flatten ++ chunkedFrame []) hwne hwlen
      have hinput : ((w :: ws).map chunkedFrame).flatten ++ chunkedFrame [] =
          chunkedFrame w ++ ((ws.map chunkedFrame).flatten ++ chunkedFrame []) := by
        simp
      have hlenne : w.length ≠ 0 := by simpa [List.length_eq_zero] using hwne
      have hwsf : ws.length < f := by
        have : (w :: ws).length = ws.length + 1 := List.length_cons w ws
        omega
      rw [hinput]
      simp only [decodeChunkedAux, hrcs]
      rw [if_neg hlenne,
        if_pos (by simp),
        List.drop_left w (13 :: 10 :: ((ws.map chunkedFrame).flatten ++ chunkedFrame []))]
      simp only [List.take_left w]
      rw [ih f hwsf (fun x hx => hne x (List.mem_cons_of_mem w hx))
        (fun x hx => hlen x (List.mem_cons_of_mem w hx))]
      simp

theorem writeAll_chunked (W : List (List Nat)) :
    HttpWriter.ChunkedWriter.writeAll W =
      (HttpWriter.ChunkedWriter, (W.map chunkedFrame).flatten) := by
  induction W with
  | nil => rfl
  | cons w ws ih => simp [HttpWriter.writeAll, HttpWriter.write, ih]

theorem write_sized (remaining : Nat) (msg : List Nat) :
    (HttpWriter.SizedWriter remaining).write msg =
      (HttpWriter.SizedWriter (remaining - min remaining msg.length),
        msg.take (min remaining msg.length), min remaining msg.length) := by
  rw [HttpWriter.write]
  by_cases h : msg.length > remaining
  · rw [if_pos h]
    have hmin : min remaining msg.length = remaining := by omega
    rw [hmin]
    have : remaining - remaining = 0 := by omega
    rw [this]
  · rw [if_neg h]
    have hmin : min remaining msg.length = msg.length := by omega
    rw [hmin, List.take_length]

theorem writeAll_sized (W : List (List Nat)) :
    ∀ n, (HttpWriter.SizedWriter n).writeAll W =
      (HttpWriter.SizedWriter (n - W.flatten.length), W.flatten.take n) := by
  induction W with
  | nil => intro n; simp [HttpWriter.writeAll]
  | cons w ws ih =>
      intro n
      simp only [HttpWriter.writeAll, write_sized, ih, List.flatten_cons]
      have h1 : n - min n w.length - ws.flatten.length = n - (w ++ ws.flatten).length := by
        simp only [List.length_append]
        omega
      have h2 : w.take (min n w.length) ++ ws.flatten.take (n - min n w.length) =
          (w ++ ws.flatten).take n := by
        rw [List.take_append_eq_append_take]
        by_cases h : w.length ≤ n
        · have hm : min n w.length = w.length := by omega
          rw [hm, List.take_length, List.take_of_length_le h]
        · have hm : min n w.length = n := by omega
          have hz : n - w.length = 0 := by omega
          rw [hm, hz, Nat.sub_self]
      rw [h1, h2]

/-- C6: a Sized body writer with remaining = N accepts exactly
min(remaining, len) bytes per write, decrements remaining by that amount
and silently discards the excess; across any sequence of writes totalling
more than N bytes, exactly the first N bytes reach the underlying
writer. -/
theorem C6_sized_write_truncation (N : Nat) (W : List (List Nat))
    (remaining : Nat) (msg : List Nat) (hover : N < W.flatten.length) :
    (HttpWriter.SizedWriter remaining).write msg =
      (HttpWriter.SizedWriter (remaining - min remaining msg.length),
        msg.take (min remaining msg.length), min remaining msg.length) ∧
    ((HttpWriter.SizedWriter N).writeAll W).2 = W.flatten.take N ∧
    (((HttpWriter.SizedWriter N).writeAll W).2).length = N := by
  refine ⟨write_sized remaining msg, ?_, ?_⟩
  · rw [writeAll_sized]
  · rw [writeAll_sized]
    simp only [List.length_take]
    omega

/-- Witness for C6 at N = 2, W = [[1,2,3]], a single write of remaining 5
against message [7,8,9,10,11,12]. -/
theorem C6_sized_write_truncation_witness :
    (HttpWriter.SizedWriter 5).write [7, 8, 9, 10, 11, 12] =
      (HttpWriter.SizedWriter 0, [7, 8, 9, 10, 11], 5) ∧
    ((HttpWriter.SizedWriter 2).writeAll [[1, 2, 3]]).2 = [1, 2] ∧
    (((HttpWriter.SizedWriter 2).writeAll [[1, 2, 3]]).2).length = 2 :=
  C6_sized_write_truncation 2 [[1, 2, 3]] 5 [7, 8, 9, 10, 11, 12] (by decide)

/-- C2 as stated is false: a zero-length chunked write is not a no-op; it
emits the 0 CRLF CRLF terminator bytes, and a stream containing an empty
write followed by a non-empty one no longer decodes to the concatenation
of the writes. -/
theorem C2_chunked_zero_write_counterexample :
    (HttpWriter.ChunkedWriter.write []).2.1 = [48, 13, 10, 13, 10] ∧
    ([48, 13, 10, 13, 10] : List Nat) ≠ [] ∧
    decodeChunked ((HttpWriter.ChunkedWriter.writeAll [[], [97]]).2 ++
      HttpWriter.ChunkedWriter.endEmit) = some [] ∧
    ([[], [97]] : List (List Nat)).flatten = [97] ∧
    some ([] : List Nat) ≠ some [97] := by decide

/-- C2 (amended): every chunked write of msg, empty or not, emits
hex(len) CRLF msg CRLF and reports len bytes accepted; a zero-length
write therefore emits the terminator bytes 0 CRLF CRLF, which is exactly
how finalization emits it; and for a sequence of non-empty payload writes
W, decoding the emitted chunk stream after finalization reproduces
concat(W). -/
theorem C2_chunked_write_roundtrip (W : List (List Nat)) (msg : List Nat)
    (hne : ∀ w ∈ W, w ≠ []) (hlen : ∀ w ∈ W, w.length < 2 ^ 64) :
    HttpWriter.ChunkedWriter.write msg =
      (HttpWriter.ChunkedWriter, chunkedFrame msg, msg.length) ∧
    HttpWriter.ChunkedWriter.endEmit = chunkedFrame [] ∧
    decodeChunked ((HttpWriter.ChunkedWriter.writeAll W).2 ++
      HttpWriter.ChunkedWriter.endEmit) = some W.flatten := by
  refine ⟨rfl, rfl, ?_⟩
  have hemit : (HttpWriter.ChunkedWriter.writeAll W).2 ++
      HttpWriter.ChunkedWriter.endEmit =
      (W.map chunkedFrame).flatten ++ chunkedFrame [] := by
    rw [writeAll_chunked]
    rfl
  rw [hemit, decodeChunked]
  apply decodeChunkedAux_frames W _ _ hne hlen
  have h1 := length_le_flatten_frames W
  simp only [List.length_append]
  omega

/-- Witness for C2 at W = [[97], [98, 99]] with a probe write of [97]. -/
theorem C2_chunked_write_roundtrip_witness :
    HttpWriter.ChunkedWriter.write [97] =
      (HttpWriter.ChunkedWriter, chunkedFrame [97], 1) ∧
    HttpWriter.ChunkedWriter.endEmit = chunkedFrame [] ∧
    decodeChunked ((HttpWriter.ChunkedWriter.writeAll [[97], [98, 99]]).2 ++
      HttpWriter.ChunkedWriter.endEmit) = some [97, 98, 99] :=
  C2_chunked_write_roundtrip [[97], [98, 99]] [97] (by decide) (by decide)

/-- The transport handle (tick::Transfer) as seen from the core: the
connection only ever calls close() on it, so the model records whether
close has been called. -/
structure Transfer where
  closed : Bool
  deriving DecidableEq, Repr

/-- Lend of src/http/conn.rs: the connection either owns the transfer, or
has lent it out and holds the receiving end of the one-shot return
channel; the channel holds the transfer once the lease has been
dropped. -/
inductive Lend (T : Type) : Type
  | Owned (t : T)
  | Lent (chan : Option T)
  deriving DecidableEq, Repr

namespace Lend

/-- Lend::claim: if lent, poll the return channel and reinstall the
transfer when the lease has been dropped; then return mutable access iff
the transfer is owned.  Modelled as the new Lend state plus the owned
value when access is granted. -/
def claim {T : Type} : Lend T → Lend T × Option T
  | Owned t => (Owned t, some t)
  | Lent (some t) => (Owned t, some t)
  | Lent none => (Lent none, none)

/-- Lend::lease: move the owned transfer out into a lease token,
installing the return channel in its place; calling lease while already
lent is a panic in the source (none here). -/
def lease {T : Type} : Lend T → Option (T × Lend T)
  | Owned t => some (t, Lent none)
  | Lent _ => none

/-- Drop for Lease: the held transfer is sent back through the return
channel of the lend it was taken from. -/
def dropLease {T : Type} (l : Lend T) (t : T) : Lend T :=
  match l with
  | Lent none => Lent (some t)
  | other => other

end Lend

/-- The three connection states of src/http/conn.rs. -/
inductive ConnState : Type
  | Parsing
  | Handling
  | Closed
  deriving DecidableEq, Repr

/-- Outcome of the message parser as consumed by Conn::on_data (the
parser itself is the external httparse crate behind http::h1::parse): a
parsed head with the consumed byte count, incomplete, or a parse
error. -/
inductive ParseOutcome (Head : Type) : Type
  | ok (head : Head) (len : Nat)
  | incomplete
  | err
  deriving DecidableEq, Repr

/-- The handler interactions and transport effects observable during a
single on_data call. -/
inductive Event (Head : Type) : Type
  | onIncoming (head : Head)
  | onBody (data : List Nat) (used : Nat)
  | closedTransfer
  deriving DecidableEq, Repr

/-- True exactly on on_body events. -/
def Event.isBody {Head : Type} : Event Head → Bool
  | Event.onBody _ _ => true
  | _ => false

/-- Conn of src/http/conn.rs: the lend-wrapped transfer, the state, and
the parse buffer, a cursor over a byte vector modelled as position plus
data. -/
structure Conn where
  transfer : Lend Transfer
  state : ConnState
  bufPos : Nat
  bufData : List Nat
  deriving DecidableEq, Repr

/-- Conn::new: transfer owned, state Parsing, empty buffer. -/
def Conn.new (t : Transfer) : Conn :=
  { transfer := Lend.Owned t, state := ConnState.Parsing, bufPos := 0, bufData := [] }

/-- The maximum parse-buffer size constant of src/http/conn.rs. -/
def MAX_BUFFER_SIZE : Nat := 8192 + 4096 * 100

/-- Conn::on_data of src/http/conn.rs.  The handler is abstracted by the
parse outcome function and its on_body callback; on_incoming is recorded
as an event carrying the parsed head (the lease it receives lives on
outside this call).  The result is the new connection and the event list,
or none when the source panics (the unimplemented Closed arm, a second
lease, or the expect on a lost transfer). -/
def on_data {Head : Type} (parse : List Nat → ParseOutcome Head)
    (on_body : List Nat → Nat) (c : Conn) (data : List Nat) :
    Option (Conn × List (Event Head)) :=
  let cl := c.transfer.claim
  let tr := cl.1
  let st := if cl.2.isSome then ConnState.Parsing else c.state
  match st with
  | ConnState.Parsing =>
      let buf := c.bufData ++ data
      match parse buf with
      | ParseOutcome.ok head len =>
          match tr.lease with
          | some (_, tr2) =>
              some ({ transfer := tr2, state := ConnState.Handling,
                      bufPos := len, bufData := buf }, [Event.onIncoming head])
          | none => none
      | ParseOutcome.incomplete =>
          some ({ transfer := tr, state := ConnState.Parsing,
                  bufPos := c.bufPos, bufData := buf }, [])
      | ParseOutcome.err =>
          match tr.claim with
          | (_, some t) =>
              some ({ transfer := Lend.Owned { t with closed := true },
                      state := ConnState.Closed, bufPos := c.bufPos,
                      bufData := buf }, [Event.closedTransfer])
          | (_, none) => none
  | ConnState.Handling =>
      let used := on_body data
      if data.length > used then
        some ({ transfer := tr, state := ConnState.Parsing, bufPos := 0,
                bufData := data.drop used }, [Event.onBody data used])
      else
        some ({ transfer := tr, state := ConnState.Handling, bufPos := c.bufPos,
                bufData := c.bufData }, [Event.onBody data used])
  | ConnState.Closed => none

/-- A parser that completes with head 0 and five consumed bytes as soon
as at least seven bytes are buffered; used to exhibit piggybacked body
bytes arriving together with the head. -/
def parseOkAt7 : List Nat → ParseOutcome Nat :=
  fun l => if 7 ≤ l.length then ParseOutcome.ok 0 5 else ParseOutcome.incomplete

/-- A parser that always reports incomplete. -/
def parseIncomplete : List Nat → ParseOutcome Nat :=
  fun _ => ParseOutcome.incomplete

/-- An on_body callback that consumes nothing, as the committed handler
does. -/
def onBodyZero : List Nat → Nat := fun _ => 0

/-- A connection in Parsing state whose buffer already exceeds
MAX_BUFFER_SIZE by one byte. -/
def bigConn : Conn :=
  { transfer := Lend.Owned { closed := false }, state := ConnState.Parsing,
    bufPos := 0, bufData := List.replicate 417793 0 }

/-- C10: claim grants mutable access to the transfer whenever it is
owned, in particular on a fresh connection at the top of the very first
on_data; it also reclaims a returned lease; it returns none only while
the transfer is lent and the lease has not been dropped. -/
theorem C10_claim_owned (t : Transfer) :
    (Conn.new t).transfer.claim = (Lend.Owned t, some t) ∧
    Lend.claim (Lend.Owned t) = (Lend.Owned t, some t) ∧
    Lend.claim (Lend.Lent (some t)) = (Lend.Owned t, some t) ∧
    (Lend.claim (Lend.Lent (none : Option Transfer))).2 = none :=
  ⟨rfl, rfl, rfl, rfl⟩

/-- C8: lease moves the owned transfer into the token and a second lease
before the drop is a panic, so at most one lease is outstanding; while it
is outstanding claim returns none; the lease drop returns the transfer
through the channel and the next claim reclaims ownership and returns
it. -/
theorem C8_lease_exclusion (t u : Transfer) (c : Option Transfer) :
    Lend.lease (Lend.Owned t) = some (t, Lend.Lent (none : Option Transfer)) ∧
    (Lend.claim (Lend.Lent (none : Option Transfer))).2 = none ∧
    Lend.lease (Lend.Lent c) = none ∧
    Lend.dropLease (Lend.Lent (none : Option Transfer)) u = Lend.Lent (some u) ∧
    Lend.claim (Lend.Lent (some u)) = (Lend.Owned u, some u) :=
  ⟨rfl, rfl, rfl, rfl, rfl⟩

/-- C1 as implemented: on_data in Parsing with an incomplete parse leaves
the connection in Parsing and keeps the whole enlarged buffer even when
it already exceeds MAX_BUFFER_SIZE; no failure is reported, the transfer
is not closed, and no transition to Closed happens (the bound check is a
TODO in the source). -/
theorem C1_buffer_bound_unchecked {Head : Type}
    (parse : List Nat → ParseOutcome Head) (on_body : List Nat → Nat)
    (c : Conn) (data : List Nat) (t : Transfer)
    (htr : c.transfer = Lend.Owned t) (_hst : c.state = ConnState.Parsing)
    (hp : parse (c.bufData ++ data) = ParseOutcome.incomplete)
    (_hbig : MAX_BUFFER_SIZE < (c.bufData ++ data).length) :
    on_data parse on_body c data =
      some ({ transfer := Lend.Owned t, state := ConnState.Parsing,
              bufPos := c.bufPos, bufData := c.bufData ++ data }, []) ∧
    ConnState.Parsing ≠ ConnState.Closed := by
  refine ⟨?_, by decide⟩
  simp [on_data, htr, hp, Lend.claim]

/-- Witness for C1: a concrete Parsing connection whose buffer holds
417793 bytes, one past MAX_BUFFER_SIZE, fed an empty data chunk under an
always-incomplete parser. -/
theorem C1_buffer_bound_unchecked_witness :
    on_data parseIncomplete onBodyZero bigConn [] =
      some ({ transfer := Lend.Owned { closed := false },
              state := ConnState.Parsing, bufPos := 0,
              bufData := List.replicate 417793 0 ++ [] }, []) ∧
    ConnState.Parsing ≠ ConnState.Closed :=
  C1_buffer_bound_unchecked parseIncomplete onBodyZero bigConn []
    { closed := false } rfl rfl rfl
    (by
      show MAX_BUFFER_SIZE < (List.replicate 417793 0 ++ []).length
      rw [List.append_nil, List.length_replicate]
      decide)

/-- C3 is violated: once Closed, a further on_data is not ignored.  With
the transfer still lent (lease not yet dropped) the Closed arm is
unimplemented!() and the call panics; with the transfer owned, the
top-of-call claim resets the state to Parsing and the event is processed
exactly as in the Parsing state, extending the buffer and possibly
invoking the handler. -/
theorem C3_closed_not_ignored {Head : Type}
    (parse : List Nat → ParseOutcome Head) (on_body : List Nat → Nat)
    (pos : Nat) (buf data : List Nat) (t : Transfer) :
    on_data parse on_body
      { transfer := Lend.Lent none, state := ConnState.Closed,
        bufPos := pos, bufData := buf } data = none ∧
    on_data parse on_body
      { transfer := Lend.Owned t, state := ConnState.Closed,
        bufPos := pos, bufData := buf } data =
      on_data parse on_body
        { transfer := Lend.Owned t, state := ConnState.Parsing,
          bufPos := pos, bufData := buf } data := by
  constructor
  · simp [on_data, Lend.claim]
  · simp [on_data, Lend.claim]

/-- C4 as stated is false: with two bytes piggybacked after a complete
head, on_data hands the head to the handler and stops; no on_body event
is emitted in the same invocation, and the leftover bytes merely remain
in the buffer past the cursor. -/
theorem C4_no_replay_counterexample :
    on_data parseOkAt7 onBodyZero (Conn.new { closed := false })
        [1, 2, 3, 4, 5, 6, 7] =
      some ({ transfer := Lend.Lent none, state := ConnState.Handling,
              bufPos := 5, bufData := [1, 2, 3, 4, 5, 6, 7] },
        [Event.onIncoming 0]) ∧
    ([Event.onIncoming 0] : List (Event Nat)).filter Event.isBody = [] ∧
    (5 : Nat) < 7 := by decide

/-- C4 (amended): from Parsing with the transfer owned, a successful
parse advances the buffer cursor past consumed, leases the transfer,
invokes handler.on_incoming with the head and the lease, and transitions
to Handling; the bytes past the cursor stay in the buffer and are NOT
replayed to the handler's body sink within the same on_data call (the
event list carries no on_body event). -/
theorem C4_parse_complete {Head : Type}
    (parse : List Nat → ParseOutcome Head) (on_body : List Nat → Nat)
    (c : Conn) (data : List Nat) (head : Head) (len : Nat) (t : Transfer)
    (htr : c.transfer = Lend.Owned t) (_hst : c.state = ConnState.Parsing)
    (hp : parse (c.bufData ++ data) = ParseOutcome.ok head len) :
    on_data parse on_body c data =
      some ({ transfer := Lend.Lent none, state := ConnState.Handling,
              bufPos := len, bufData := c.bufData ++ data },
        [Event.onIncoming head]) ∧
    ([Event.onIncoming head] : List (Event Head)).filter Event.isBody = [] := by
  constructor
  · simp [on_data, htr, hp, Lend.claim, Lend.lease]
  · simp [List.filter, Event.isBody]

/-- Witness for C4: the concrete seven-byte scenario of the
counterexample, applied through the amended theorem. -/
theorem C4_parse_complete_witness :
    on_data parseOkAt7 onBodyZero (Conn.new { closed := false })
        [11, 12, 13, 14, 15, 16, 17] =
      some ({ transfer := Lend.Lent none, state := ConnState.Handling,
              bufPos := 5, bufData := [] ++ [11, 12, 13, 14, 15, 16, 17] },
        [Event.onIncoming 0]) ∧
    ([Event.onIncoming 0] : List (Event Nat)).filter Event.isBody = [] :=
  C4_parse_complete parseOkAt7 onBodyZero (Conn.new { closed := false })
    [11, 12, 13, 14, 15, 16, 17] 0 5 { closed := false } rfl rfl (by decide)

/-- Connection header options (the core checks the keep-alive and close
tokens of hyper's header::ConnectionOption; other tokens exist). -/
inductive ConnectionOption : Type
  | KeepAlive
  | Close
  | OtherToken (s : String)
  deriving DecidableEq, Repr

/-- Transfer encodings (hyper's header::Encoding), as far as the core
manipulates them. -/
inductive Encoding : Type
  | Chunked
  | Gzip
  | EncodingExt (s : String)
  deriving DecidableEq, Repr

/-- The HTTP versions this repository's parser produces: version token 1
gives HTTP/1.1, anything else HTTP/1.0 (src/http/h1/parse.rs). -/
inductive HttpVersion : Type
  | Http10
  | Http11
  deriving DecidableEq, Repr

/-- The headers collection restricted to the typed views the core reads
and writes: Content-Length, Transfer-Encoding, Date presence, and
Connection.  The full typed Headers type is an external collaborator of
the core. -/
structure Headers where
  contentLength : Option Nat
  transferEncoding : Option (List Encoding)
  hasDate : Bool
  connection : Option (List ConnectionOption)
  deriving DecidableEq, Repr

/-- should_keep_alive of src/http/mod.rs: false for HTTP/1.0 without a
Connection header, false for HTTP/1.0 whose Connection lacks keep-alive,
false for HTTP/1.1 whose Connection contains close, true otherwise. -/
def should_keep_alive (version : HttpVersion) (headers : Headers) : Bool :=
  match version, headers.connection with
  | HttpVersion.Http10, none => false
  | HttpVersion.Http10, some conn =>
      if conn.contains ConnectionOption.KeepAlive then true else false
  | HttpVersion.Http11, some conn =>
      if conn.contains ConnectionOption.Close then false else true
  | _, _ => true

/-- Whether the headers have a Connection header containing the given
option. -/
def connectionHas (headers : Headers) (o : ConnectionOption) : Bool :=
  match headers.connection with
  | some conn => conn.contains o
  | none => false

/-- Whether the headers contain a Transfer-Encoding including chunked. -/
def hasChunkedTE (headers : Headers) : Bool :=
  match headers.transferEncoding with
  | some encodings => decide (Encoding.Chunked ∈ encodings)
  | none => false

/-- Body framing variants chosen by write_head (enum Body in
src/server/response.rs). -/
inductive Body : Type
  | Sized (len : Nat)
  | Chunked
  deriving DecidableEq, Repr

/-- Response::write_head of src/server/response.rs, restricted to its
effect on the headers and the framing choice (the status line and the
serialized headers go to the wire): inject a Date header when absent;
choose Sized(value) when Content-Length is present, else Chunked, pushing
a chunked encoding onto the existing Transfer-Encoding list or creating
the header. -/
def write_head (headers : Headers) : Body × Headers :=
  let headers := if headers.hasDate then headers else { headers with hasDate := true }
  let body := match headers.contentLength with
    | some cl => Body.Sized cl
    | none => Body.Chunked
  match body with
  | Body.Chunked =>
      let headers := match headers.transferEncoding with
        | some encodings =>
            { headers with transferEncoding := some (encodings ++ [Encoding.Chunked]) }
        | none => { headers with transferEncoding := some [Encoding.Chunked] }
      (Body.Chunked, headers)
  | Body.Sized cl => (Body.Sized cl, headers)

/-- The Fresh-phase server response: mutable version, status and headers;
its body writer is still the pass-through writer. -/
structure FreshResponse where
  version : HttpVersion
  status : Nat
  headers : Headers
  deriving DecidableEq, Repr

/-- The Streaming-phase server response, carrying the chosen body
writer. -/
structure StreamingResponse where
  version : HttpVersion
  status : Nat
  headers : Headers
  body : HttpWriter
  deriving DecidableEq, Repr

/-- Response::start of src/server/response.rs: write the head, then
replace the pass-through writer with the Sized or Chunked writer chosen
by write_head, reusing the underlying writer. -/
def FreshResponse.start (r : FreshResponse) : StreamingResponse :=
  let bh := write_head r.headers
  { version := r.version, status := r.status, headers := bh.2,
    body := match bh.1 with
      | Body.Sized len => HttpWriter.SizedWriter len
      | Body.Chunked => HttpWriter.ChunkedWriter }

/-- Dropping a Streaming response (impl Drop for Response in
src/server/response.rs, Fresh-only head synthesis skipped): the transfer
is closed iff should_keep_alive is false, and the drop of the contained
body writer emits its terminator bytes (only the chunked writer emits
anything).  Returns the emitted bytes and whether the transfer was
closed. -/
def streamingResponseDrop (r : StreamingResponse) : List Nat × Bool :=
  (r.body.dropEmit, !(should_keep_alive r.version r.headers))

/-- C9: should_keep_alive is true unless the version is 1.0 without a
Connection: keep-alive, or the version is 1.1 with Connection: close;
stated over all versions and Connection header contents, which covers the
whole truth table. -/
theorem C9_should_keep_alive (version : HttpVersion) (headers : Headers) :
    should_keep_alive version headers = true ↔
      ¬((version = HttpVersion.Http10 ∧
          connectionHas headers ConnectionOption.KeepAlive = false) ∨
        (version = HttpVersion.Http11 ∧
          connectionHas headers ConnectionOption.Close = true)) := by
  cases version <;> rcases h : headers.connection with _ | conn
  · simp [should_keep_alive, connectionHas, h]
  · by_cases hc : conn.contains ConnectionOption.KeepAlive <;>
      simp [should_keep_alive, connectionHas, h, hc]
  · simp [should_keep_alive, connectionHas, h]
  · by_cases hc : conn.contains ConnectionOption.Close <;>
      simp [should_keep_alive, connectionHas, h, hc]

/-- C5 as stated is false: a Streaming response holding a Sized writer
with remaining = 1 > 0, on an HTTP/1.1 exchange without Connection:
close, is dropped without closing the connection (and the writer drop
emits nothing); the connection stays keep-alive despite the framing
violation. -/
theorem C5_sized_drop_counterexample :
    streamingResponseDrop
      { version := HttpVersion.Http11, status := 200,
        headers := { contentLength := some 5, transferEncoding := none,
                     hasDate := true, connection := none },
        body := HttpWriter.SizedWriter 1 } = ([], false) ∧
    (0 : Nat) < 1 ∧
    (([], false) : List Nat × Bool).2 ≠ true := by decide

/-- C5 (amended): dropping a Sized body writer emits nothing and does not
by itself close the connection, whatever remaining is; on the Response
drop the transfer is closed exactly when should_keep_alive(version,
headers) is false, independently of the remaining count. -/
theorem C5_sized_drop_keep_alive (version : HttpVersion) (status : Nat)
    (headers : Headers) (remaining : Nat) :
    streamingResponseDrop
      { version := version, status := status, headers := headers,
        body := HttpWriter.SizedWriter remaining } =
      ([], !(should_keep_alive version headers)) := rfl

/-- C7 as stated is false: when the handler sets both Content-Length and
a chunked Transfer-Encoding, start() chooses the Sized writer but leaves
the chunked Transfer-Encoding in the serialized head. -/
theorem C7_framing_counterexample :
    (FreshResponse.start
      { version := HttpVersion.Http11, status := 200,
        headers := { contentLength := some 5,
                     transferEncoding := some [Encoding.Chunked],
                     hasDate := true, connection := none } }).body =
      HttpWriter.SizedWriter 5 ∧
    hasChunkedTE (FreshResponse.start
      { version := HttpVersion.Http11, status := 200,
        headers := { contentLength := some 5,
                     transferEncoding := some [Encoding.Chunked],
                     hasDate := true, connection := none } }).headers = true := by
  decide

/-- C7 (amended): start() makes the body writer Sized(value) when
Content-Length is present and Chunked otherwise; Content-Length is
preserved in the head; with Content-Length present the Transfer-Encoding
header is left exactly as the handler set it (no chunked encoding is
added, but none is removed either); without Content-Length the head ends
up with a Transfer-Encoding containing chunked, appended to the existing
list or freshly created. -/
theorem C7_framing_choice (r : FreshResponse) :
    (r.start).body = (match r.headers.contentLength with
      | some v => HttpWriter.SizedWriter v
      | none => HttpWriter.ChunkedWriter) ∧
    (r.start).headers.contentLength = r.headers.contentLength ∧
    (r.headers.contentLength.isSome = true →
      (r.start).headers.transferEncoding = r.headers.transferEncoding) ∧
    (r.headers.contentLength = none → hasChunkedTE (r.start).headers = true) := by
  rcases hcl : r.headers.contentLength with _ | v
  · refine ⟨?_, ?_, ?_, ?_⟩
    · by_cases hd : r.headers.hasDate <;>
        rcases hte : r.headers.transferEncoding with _ | encodings <;>
        simp [FreshResponse.start, write_head, hcl, hd, hte]
    · by_cases hd : r.headers.hasDate <;>
        rcases hte : r.headers.transferEncoding with _ | encodings <;>
        simp [FreshResponse.start, write_head, hcl, hd, hte]
    · intro hs
      simp at hs
    · intro _
      by_cases hd : r.headers.hasDate <;>
        rcases hte : r.headers.transferEncoding with _ | encodings <;>
        simp [FreshResponse.start, write_head, hasChunkedTE, hcl, hd, hte]
  · refine ⟨?_, ?_, ?_, ?_⟩
    · by_cases hd : r.headers.hasDate <;>
        simp [FreshResponse.start, write_head, hcl, hd]
    · by_cases hd : r.headers.hasDate <;>
        simp [FreshResponse.start, write_head, hcl, hd]
    · intro _
      by_cases hd : r.headers.hasDate <;>
        simp [FreshResponse.start, write_head, hcl, hd]
    · intro hn
      cases hn

/-- Witness for C7: a response whose handler set no Content-Length and no
Transfer-Encoding gets the chunked writer and a chunked
Transfer-Encoding header. -/
theorem C7_framing_choice_witness :
    (FreshResponse.start
      { version := HttpVersion.Http11, status := 200,
        headers := { contentLength := none, transferEncoding := none,
                     hasDate := false, connection := none } }).body =
      HttpWriter.ChunkedWriter ∧
    hasChunkedTE (FreshResponse.start
      { version := HttpVersion.Http11, status := 200,
        headers := { contentLength := none, transferEncoding := none,
                     hasDate := false, connection := none } }).headers = true :=
  ⟨(C7_framing_choice
      { version := HttpVersion.Http11, status := 200,
        headers := { contentLength := none, transferEncoding := none,
                     hasDate := false, connection := none } }).1,
    (C7_framing_choice
      { version := HttpVersion.Http11, status := 200,
        headers := { contentLength := none, transferEncoding := none,
                     hasDate := false, connection := none } }).2.2.2 rfl⟩
